import Mathlib

/-!
Verification of the gopack build-orchestration and packaging pipeline.

This file gives a shallow embedding of the Go sources of the gopack
repository and proves (or refutes) the specified properties about them.
Go strings are modelled as `List Char`; Go byte slices as `List Nat`
(each element a byte value); machine-integer truncation is written with
explicit `% 2 ^ w`.  Go functions that can panic are modelled with
`Option`, the `none` case standing for the panic.
-/

/-- Literal helper: the character list of a Lean string literal. -/
def str (s : String) : List Char := s.data

/-- Model of Go `strings.Split(s, sep)` for a single-character separator.
Mirrors Go semantics: the result always has at least one element, and the
separators themselves are dropped. -/
def splitOnChar (sep : Char) : List Char → List (List Char)
  | [] => [[]]
  | c :: cs =>
    let rest := splitOnChar sep cs
    if c = sep then [] :: rest
    else
      match rest with
      | [] => [[c]]
      | r :: rs => (c :: r) :: rs

/-- Boolean prefix test on character lists (model of Go `strings.HasPrefix`). -/
def isPre : List Char → List Char → Bool
  | [], _ => true
  | _ :: _, [] => false
  | a :: as, b :: bs => a = b && isPre as bs

/-- Model of Go `strings.Contains hay pat`: does `pat` occur as a contiguous
substring of `hay`? -/
def containsSub (hay pat : List Char) : Bool :=
  match hay with
  | [] => isPre pat []
  | _ :: t => isPre pat hay || containsSub t pat

/-! ## Target model (src/gopack.go)

`Platform` and `Architecture` are Go `uint8` enums; we keep the numeric
representation because the Go code relies on the zero value (`Windows`,
respectively `X86`) when parsing unrecognised tokens. -/

/-- Go `type Platform uint8`. -/
abbrev Platform := Nat

/-- `Windows Platform = iota` (zero value). -/
def Windows : Platform := 0

/-- `Darwin` platform constant. -/
def Darwin : Platform := 1

/-- `Linux` platform constant. -/
def Linux : Platform := 2

/-- `JS` platform constant. -/
def JS : Platform := 3

/-- Go `func (p Platform) String() string`. -/
def Platform.toStr (p : Platform) : List Char :=
  if p = Windows then str "windows"
  else if p = Darwin then str "darwin"
  else if p = Linux then str "linux"
  else if p = JS then str "js"
  else str "unknown"

/-- Go `func (p *Platform) FromStr(s string) Platform`: the receiver keeps
its previous value (`p` here) when the token is not recognised. -/
def Platform.fromStr (p : Platform) (s : List Char) : Platform :=
  if s = str "windows" then Windows
  else if s = str "darwin" then Darwin
  else if s = str "linux" then Linux
  else if s = str "js" then JS
  else p

/-- Go `type Architecture uint8`. -/
abbrev Architecture := Nat

/-- `X86 Architecture = iota` (zero value). -/
def X86 : Architecture := 0

/-- `AMD64` architecture constant. -/
def AMD64 : Architecture := 1

/-- `ARM` architecture constant. -/
def ARM : Architecture := 2

/-- `ARM64` architecture constant. -/
def ARM64 : Architecture := 3

/-- `WASM` architecture constant. -/
def WASM : Architecture := 4

/-- Go `func (a Architecture) String() string`. -/
def Architecture.toStr (a : Architecture) : List Char :=
  if a = X86 then str "386"
  else if a = AMD64 then str "amd64"
  else if a = ARM then str "arm"
  else if a = ARM64 then str "arm64"
  else if a = WASM then str "wasm"
  else str "unknown"

/-- Go `func (a *Architecture) FromStr(s string) Architecture`. -/
def Architecture.fromStr (a : Architecture) (s : List Char) : Architecture :=
  if s = str "386" then X86
  else if s = str "amd64" then AMD64
  else if s = str "arm" then ARM
  else if s = str "arm64" then ARM64
  else if s = str "wasm" then WASM
  else a

/-- Go `type Target struct { Platform; Architecture }`. -/
structure Target where
  platform : Platform
  architecture : Architecture
deriving DecidableEq

/-- Go `func NewTarget(s string) Target`:
`strings.Split(s, "/")` is indexed at `[0]` and `[1]`; when the split has
fewer than two parts the Go code panics with an index-out-of-range, which
we model as `none`.  The platform and architecture parsers start from
zero-initialised variables (`var p Platform; var a Architecture`). -/
def NewTarget (s : List Char) : Option Target :=
  match splitOnChar '/' s with
  | p :: a :: _ => some ⟨Platform.fromStr 0 p, Architecture.fromStr 0 a⟩
  | _ => none

/-- Go `func (t Target) String() string`, i.e.
`fmt.Sprintf("%s_%s", t.Platform, t.Architecture)`. -/
def Target.toStr (t : Target) : List Char :=
  Platform.toStr t.platform ++ str "_" ++ Architecture.toStr t.architecture

/-- Go `var DefaultTargets = []Target{...}` (src/gopack.go). -/
def DefaultTargets : List Target :=
  (List.map (fun s => NewTarget (str s))
    ["windows/386", "windows/amd64", "windows/arm", "darwin/amd64",
     "linux/386", "linux/amd64", "linux/arm", "linux/arm64",
     "js/wasm"]).reduceOption

/-! Helper lemmas about `splitOnChar`. -/

theorem splitOnChar_ne_nil (sep : Char) (s : List Char) :
    splitOnChar sep s ≠ [] := by
  induction s with
  | nil => simp [splitOnChar]
  | cons c cs ih =>
    simp only [splitOnChar]
    split
    · simp
    · cases h : splitOnChar sep cs with
      | nil => simp
      | cons r rs => simp

theorem splitOnChar_no_sep {sep : Char} {s : List Char} (h : sep ∉ s) :
    splitOnChar sep s = [s] := by
  induction s with
  | nil => rfl
  | cons c cs ih =>
    have hc : ¬ c = sep := by
      intro hcs; exact h (hcs ▸ List.mem_cons_self c cs)
    have hcs : sep ∉ cs := fun hm => h (List.mem_cons_of_mem c hm)
    simp [splitOnChar, hc, ih hcs]

theorem splitOnChar_append_sep {sep : Char} {p : List Char} (a : List Char)
    (h : sep ∉ p) :
    splitOnChar sep (p ++ sep :: a) = p :: splitOnChar sep a := by
  induction p with
  | nil => simp [splitOnChar]
  | cons c cs ih =>
    have hc : ¬ c = sep := by
      intro hcs; exact h (hcs ▸ List.mem_cons_self c cs)
    have hcs : sep ∉ cs := fun hm => h (List.mem_cons_of_mem c hm)
    simp [splitOnChar, hc, ih hcs]

theorem splitOnChar_length_of_mem {sep : Char} {s : List Char}
    (h : sep ∈ s) : 2 ≤ (splitOnChar sep s).length := by
  induction s with
  | nil => cases h
  | cons c cs ih =>
    simp only [splitOnChar]
    by_cases hc : c = sep
    · simp only [if_pos hc, List.length_cons]
      have := splitOnChar_ne_nil sep cs
      have : 1 ≤ (splitOnChar sep cs).length := by
        cases hx : splitOnChar sep cs with
        | nil => exact absurd hx this
        | cons r rs => simp
      omega
    · have hm : sep ∈ cs := by
        rcases List.mem_cons.mp h with h1 | h2
        · exact absurd h1.symm hc
        · exact h2
      have h2 := ih hm
      simp only [if_neg hc]
      cases hx : splitOnChar sep cs with
      | nil => exact absurd hx (splitOnChar_ne_nil sep cs)
      | cons r rs =>
        rw [hx] at h2
        simpa using h2

/-- **C2** (corrected: counterexample).  The claim says formatting a
supported Target with `Target.String` and re-parsing with `NewTarget`
yields the original value with neither step failing.  It is false: the
canonical string uses `_` as a separator while `NewTarget` splits on `/`,
so parsing `"windows_amd64"` hits the index-out-of-range panic
(modelled as `none`) instead of returning the original target. -/
theorem target_roundtrip_counterexample :
    (⟨Windows, AMD64⟩ : Target) ∈ DefaultTargets ∧
      NewTarget (Target.toStr ⟨Windows, AMD64⟩) = none := by decide

/-- **C2** (amended).  For every supported Target, parsing the
slash-separated pair `platform/architecture` (the shape `NewTarget`
actually consumes) succeeds and returns the original Target; parsing the
canonical underscore-separated `Target.String` output fails (Go panics)
for every supported Target, so format-then-parse is not the identity. -/
theorem target_slash_roundtrip (t : Target) (h : t ∈ DefaultTargets) :
    NewTarget (Platform.toStr t.platform ++ str "/" ++
        Architecture.toStr t.architecture) = some t ∧
      NewTarget (Target.toStr t) = none := by
  fin_cases h <;> decide

/-- Witness for `target_slash_roundtrip` at the concrete supported target
`windows/386`. -/
theorem target_slash_roundtrip_witness :
    NewTarget (Platform.toStr (Windows : Platform) ++ str "/" ++
        Architecture.toStr (X86 : Architecture)) =
      some ⟨Windows, X86⟩ ∧
      NewTarget (Target.toStr ⟨Windows, X86⟩) = none :=
  target_slash_roundtrip ⟨Windows, X86⟩ (by decide)

/-- **C6** (corrected: counterexample).  The claim says constructing a
Target never fails for any input string.  It is false: on a string with
no `/` separator (here the empty string) `strings.Split` yields a single
element and the Go code panics indexing `[1]`. -/
theorem newTarget_total_counterexample :
    NewTarget (str "") = none := by decide

/-- **C6** (amended).  Constructing a Target succeeds for every input
string that contains at least one `/`; and for such strings any platform
or architecture token not in the supported sets maps to the zero variant
of the respective enum (`Windows`, resp. `X86`).  Inputs with no `/`
make the construction panic (modelled `none`). -/
theorem newTarget_slash_total :
    (∀ s : List Char, '/' ∈ s → (NewTarget s).isSome = true) ∧
      (∀ p a : List Char, '/' ∉ p → '/' ∉ a →
        p ≠ str "windows" → p ≠ str "darwin" → p ≠ str "linux" →
        p ≠ str "js" →
        a ≠ str "386" → a ≠ str "amd64" → a ≠ str "arm" →
        a ≠ str "arm64" → a ≠ str "wasm" →
        NewTarget (p ++ str "/" ++ a) = some ⟨Windows, X86⟩) := by
  constructor
  · intro s hs
    have h2 := splitOnChar_length_of_mem hs
    unfold NewTarget
    cases hx : splitOnChar '/' s with
    | nil => exact absurd hx (splitOnChar_ne_nil _ s)
    | cons r rs =>
      cases rs with
      | nil => rw [hx] at h2; simp at h2
      | cons r2 rs2 => simp
  · intro p a hp ha h1 h2 h3 h4 h5 h6 h7 h8 h9
    have hsplit : splitOnChar '/' (p ++ str "/" ++ a) =
        p :: splitOnChar '/' a := by
      have : p ++ str "/" ++ a = p ++ '/' :: a := by simp [str]
      rw [this, splitOnChar_append_sep a hp]
    rw [show splitOnChar '/' a = [a] from splitOnChar_no_sep ha] at hsplit
    unfold NewTarget
    rw [hsplit]
    simp only [Platform.fromStr, Architecture.fromStr, if_neg h1, if_neg h2,
      if_neg h3, if_neg h4, if_neg h5, if_neg h6, if_neg h7, if_neg h8,
      if_neg h9, Option.some.injEq]
    rfl

/-- Witness for `newTarget_slash_total`: the unrecognised pair
`"ios/mips"` parses without failure to the zero variants. -/
theorem newTarget_slash_total_witness :
    NewTarget (str "ios" ++ str "/" ++ str "mips") =
      some ⟨Windows, X86⟩ :=
  newTarget_slash_total.2 (str "ios") (str "mips")
    (by decide) (by decide) (by decide) (by decide) (by decide)
    (by decide) (by decide) (by decide) (by decide) (by decide)
    (by decide)

/-! ## CopyBuffer (src/internal/util/copy_buffer.go)

Go byte slices are `List Nat`; the `nil` slice is distinguished from the
empty one with `Option`.  `slice l lo hi` models the Go slice expression
`l[lo:hi]`; the Go runtime panics unless `lo ≤ hi ≤ len l`, which the
caller of `slice` checks (`none` models the panic). -/

/-- Model of the Go slice expression `l[lo:hi]` (the runtime bounds check
`lo ≤ hi ≤ len l` is performed by the caller). -/
def goSlice (l : List Nat) (lo hi : Nat) : List Nat :=
  (l.drop lo).take (hi - lo)

/-- Go `type CopyBuffer struct { Cursor int; Data []byte }`. -/
structure CopyBuffer where
  Cursor : Nat
  Data : Option (List Nat)
deriving DecidableEq

/-- Go `func NewCopyBuffer(buffer []byte) *CopyBuffer`. -/
def NewCopyBuffer (buffer : Option (List Nat)) : CopyBuffer := ⟨0, buffer⟩

/-- Result of one `Read` call: the bytes copied into the caller's buffer,
the returned count, and whether `io.EOF` was returned. -/
structure ReadResult where
  bytes : List Nat
  n : Nat
  eof : Bool
deriving DecidableEq

/-- Go `func (b *CopyBuffer) Read(p []byte) (int, error)`:
nil data returns `(0, io.EOF)`; otherwise the end index is capped by the
data length, `copy` transfers `min (len p) (end - Cursor)` bytes, the
cursor advances by that count and resets to zero once the whole buffer
has been traversed.  `none` models the Go panic on the slice expression
`b.Data[b.Cursor:end]` when `b.Cursor` exceeds `end`. -/
def CopyBuffer.read (b : CopyBuffer) (plen : Nat) :
    Option (ReadResult × CopyBuffer) :=
  match b.Data with
  | none => some (⟨[], 0, true⟩, b)
  | some data =>
    let e := min (plen + b.Cursor) data.length
    if b.Cursor ≤ e then
      let copied := (goSlice data b.Cursor e).take plen
      let n := copied.length
      if data.length ≤ b.Cursor + n then
        some (⟨copied, n, true⟩, ⟨0, some data⟩)
      else
        some (⟨copied, n, false⟩, ⟨b.Cursor + n, some data⟩)
    else none

/-- The `copy` into the caller's buffer is `take plen` of the data from
the cursor onward, whenever the cursor is in bounds. -/
theorem goSlice_take (data : List Nat) (c plen : Nat) (hc : c ≤ data.length) :
    (goSlice data c (min (plen + c) data.length)).take plen =
      (data.drop c).take plen := by
  unfold goSlice
  rw [List.take_take, List.take_eq_take, List.length_drop]
  omega

/-- Unfolded form of `CopyBuffer.read` on in-bounds non-nil states. -/
theorem copyBuffer_read_eq (c : Nat) (data : List Nat) (plen : Nat)
    (hc : c ≤ data.length) :
    CopyBuffer.read ⟨c, some data⟩ plen =
      (if data.length ≤ c + ((data.drop c).take plen).length then
        some (⟨(data.drop c).take plen, ((data.drop c).take plen).length,
          true⟩, ⟨0, some data⟩)
      else
        some (⟨(data.drop c).take plen, ((data.drop c).take plen).length,
          false⟩, ⟨c + ((data.drop c).take plen).length, some data⟩)) := by
  have he : c ≤ min (plen + c) data.length := by omega
  unfold CopyBuffer.read
  simp only [if_pos he, goSlice_take data c plen hc]

/-- **C5** (confirmed).  A `CopyBuffer` seeded with byte slice `d` is
re-readable: a full read (caller buffer at least as long as `d`) returns
exactly the bytes of `d` with `io.EOF`, leaves the underlying data
unchanged, and resets the cursor to `0` — so the state after the read is
again the freshly seeded buffer, and a second full read returns the
identical byte sequence `d`. -/
theorem copyBuffer_reentrant (d : List Nat) (plen : Nat)
    (h : d.length ≤ plen) :
    (NewCopyBuffer (some d)).read plen =
        some (⟨d, d.length, true⟩, NewCopyBuffer (some d)) ∧
      ((NewCopyBuffer (some d)).read plen).bind (fun rc => rc.2.read plen) =
        some (⟨d, d.length, true⟩, NewCopyBuffer (some d)) := by
  have h1 : (NewCopyBuffer (some d)).read plen =
      some (⟨d, d.length, true⟩, NewCopyBuffer (some d)) := by
    show CopyBuffer.read ⟨0, some d⟩ plen = _
    rw [copyBuffer_read_eq 0 d plen (Nat.zero_le _)]
    simp [List.take_of_length_le h, NewCopyBuffer]
  exact ⟨h1, by rw [h1]; simpa using h1⟩

/-- Witness for `copyBuffer_reentrant` at `d = [1, 2, 3]`, `plen = 3`. -/
theorem copyBuffer_reentrant_witness :
    (NewCopyBuffer (some [1, 2, 3])).read 3 =
        some (⟨[1, 2, 3], 3, true⟩, NewCopyBuffer (some [1, 2, 3])) ∧
      ((NewCopyBuffer (some [1, 2, 3])).read 3).bind
          (fun rc => rc.2.read 3) =
        some (⟨[1, 2, 3], 3, true⟩, NewCopyBuffer (some [1, 2, 3])) :=
  copyBuffer_reentrant [1, 2, 3] 3 (by decide)

/-- **C10** (corrected: counterexample).  The claim asserts that after
every call the cursor satisfies `0 ≤ Cursor < len(Data)` and that `Read`
is total and in-bounds for every receiver state.  Both parts fail: with
non-nil empty data the post-state has `Cursor = 0 = len(Data)`, so
`Cursor < len(Data)` is false; and the receiver state
`⟨Cursor := 5, Data := [7]⟩` makes the Go slice expression `Data[5:1]`
panic (modelled `none`). -/
theorem copyBuffer_inbounds_counterexample :
    (CopyBuffer.read ⟨0, some []⟩ 1 = some (⟨[], 0, true⟩, ⟨0, some []⟩) ∧
      ¬ ((⟨0, some []⟩ : CopyBuffer).Cursor <
          (((⟨0, some []⟩ : CopyBuffer).Data).getD []).length)) ∧
      CopyBuffer.read ⟨5, some [7]⟩ 1 = none := by decide

/-- **C10** (amended).  For every receiver state whose cursor does not
exceed the data length (the invariant `NewCopyBuffer` establishes and
`Read` preserves), `Read` succeeds with all slice indices in bounds: nil
data yields `(0, io.EOF)` with the state unchanged; otherwise the bytes
returned are exactly `take plen` of the data from the cursor, the data
is unchanged, the new cursor again satisfies the invariant (and is
strictly below the length whenever the data is nonempty), and the cursor
resets to `0` exactly when the read reaches the end of the data —
otherwise it advances by the returned count.  Hence no sequence of reads
started from `NewCopyBuffer` can index out of range. -/
theorem copyBuffer_read_inbounds (b : CopyBuffer) (plen : Nat)
    (h : ∀ data, b.Data = some data → b.Cursor ≤ data.length) :
    ∃ res s, b.read plen = some (res, s) ∧
      s.Data = b.Data ∧
      (b.Data = none → res.n = 0 ∧ res.eof = true ∧ s = b) ∧
      (∀ data, b.Data = some data →
        res.bytes = (data.drop b.Cursor).take plen ∧
        res.n = res.bytes.length ∧
        s.Cursor ≤ data.length ∧
        (0 < data.length → s.Cursor < data.length) ∧
        (data.length ≤ b.Cursor + res.n → s.Cursor = 0 ∧ res.eof = true) ∧
        (b.Cursor + res.n < data.length →
          s.Cursor = b.Cursor + res.n ∧ res.eof = false)) := by
  obtain ⟨c, dOpt⟩ := b
  cases dOpt with
  | none =>
    exact ⟨⟨[], 0, true⟩, ⟨c, none⟩, rfl, rfl, fun _ => ⟨rfl, rfl, rfl⟩,
      fun data hdata => by cases hdata⟩
  | some data =>
    have hc : c ≤ data.length := h data rfl
    have hn : ((data.drop c).take plen).length =
        min plen (data.length - c) := by
      rw [List.length_take, List.length_drop]
    by_cases hend : data.length ≤ c + ((data.drop c).take plen).length
    · refine ⟨⟨(data.drop c).take plen, ((data.drop c).take plen).length,
          true⟩, ⟨0, some data⟩, ?_, rfl, ?_, ?_⟩
      · rw [copyBuffer_read_eq c data plen hc, if_pos hend]
      · intro hno; cases hno
      · intro data2 hdata2
        injection hdata2 with hdd
        subst hdd
        refine ⟨rfl, rfl, Nat.zero_le _, fun hpos => hpos,
          fun _ => ⟨rfl, rfl⟩, ?_⟩
        intro hlt
        dsimp only at hlt
        exact absurd hend (by omega)
    · refine ⟨⟨(data.drop c).take plen, ((data.drop c).take plen).length,
          false⟩, ⟨c + ((data.drop c).take plen).length, some data⟩,
          ?_, rfl, ?_, ?_⟩
      · rw [copyBuffer_read_eq c data plen hc, if_neg hend]
      · intro hno; cases hno
      · intro data2 hdata2
        injection hdata2 with hdd
        subst hdd
        push_neg at hend
        refine ⟨rfl, rfl, ?_, ?_, ?_, fun _ => ⟨rfl, rfl⟩⟩
        · dsimp only
          omega
        · intro hpos
          dsimp only
          omega
        · intro hge
          dsimp only at hge
          exact absurd hge (by omega)

/-- Witness for `copyBuffer_read_inbounds` at the freshly seeded buffer
over `[1, 2, 3]` with a 2-byte caller buffer. -/
theorem copyBuffer_read_inbounds_witness :
    ∃ res s, (CopyBuffer.read ⟨0, some [1, 2, 3]⟩ 2) = some (res, s) ∧
      s.Data = (⟨0, some [1, 2, 3]⟩ : CopyBuffer).Data ∧
      ((⟨0, some [1, 2, 3]⟩ : CopyBuffer).Data = none →
        res.n = 0 ∧ res.eof = true ∧ s = ⟨0, some [1, 2, 3]⟩) ∧
      (∀ data, (⟨0, some [1, 2, 3]⟩ : CopyBuffer).Data = some data →
        res.bytes = (data.drop (⟨0, some [1, 2, 3]⟩ : CopyBuffer).Cursor).take
            2 ∧
        res.n = res.bytes.length ∧
        s.Cursor ≤ data.length ∧
        (0 < data.length → s.Cursor < data.length) ∧
        (data.length ≤ (⟨0, some [1, 2, 3]⟩ : CopyBuffer).Cursor + res.n →
          s.Cursor = 0 ∧ res.eof = true) ∧
        ((⟨0, some [1, 2, 3]⟩ : CopyBuffer).Cursor + res.n < data.length →
          s.Cursor = (⟨0, some [1, 2, 3]⟩ : CopyBuffer).Cursor + res.n ∧
            res.eof = false)) :=
  copyBuffer_read_inbounds ⟨0, some [1, 2, 3]⟩ 2
    (fun data hdata => by cases hdata; decide)

/-! ## Compile orchestration (src/gopack.go `Packer.Compile`) and
MultiError (src/unnamed/part_006)

The external Go toolchain invocation is an opaque collaborator: it is
modelled by an oracle `build : Target → Except msg binary` giving, for
each target, either the produced binary bytes or the combined-output
failure text.  The concurrent fan-out appends one artifact per
successful target and sends one error per failed target; goroutine
completion order is abstracted into the request order, which no counting
or membership statement below depends on. -/

/-- Go `type Artifact struct { Binary io.Reader; Target }`. -/
structure Artifact where
  binary : List Nat
  target : Target
deriving DecidableEq

/-- Go `type MultiError []error` (src/unnamed/part_006). -/
abbrev MultiError := List (List Char)

/-- Go `func (me *MultiError) FromChan(errs chan error) *MultiError`:
drains the channel, appending every received error. -/
def MultiError.FromChan (errs : List (List Char)) : MultiError := errs

/-- Go `func (me MultiError) IsEmpty() bool`. -/
def MultiError.IsEmpty (me : MultiError) : Bool := me.length = 0

/-- Does the build job for `t` fail? -/
def buildFails (build : Target → Except (List Char) (List Nat))
    (t : Target) : Bool :=
  match build t with
  | .ok _ => false
  | .error _ => true

/-- The failure text the job for `t` sends on the error channel:
`fmt.Errorf("%s: %w", target.String(), err)`. -/
def errEntry (build : Target → Except (List Char) (List Nat))
    (t : Target) : List Char :=
  match build t with
  | .ok _ => []
  | .error e => t.toStr ++ str ": " ++ e

/-- The per-target fan-out of `Packer.Compile`: each target's goroutine
either appends one `Artifact{Binary, Target}` to the artifact list or
sends one `"<target>: <cause>"` error to the channel. -/
def compileRun (build : Target → Except (List Char) (List Nat)) :
    List Target → List Artifact × List (List Char)
  | [] => ([], [])
  | t :: ts =>
    let rest := compileRun build ts
    match build t with
    | .ok bin => (⟨bin, t⟩ :: rest.1, rest.2)
    | .error e => (rest.1, (t.toStr ++ str ": " ++ e) :: rest.2)

/-- Go `func (p *Packer) Compile() error` (result aggregation): appends
the produced artifacts to the packer's existing artifact list, collects
the channel into a `MultiError` and returns it unless it is empty. -/
def Compile (prior : List Artifact)
    (build : Target → Except (List Char) (List Nat))
    (targets : List Target) : List Artifact × Option MultiError :=
  let run := compileRun build targets
  let me := MultiError.FromChan run.2
  (prior ++ run.1, if me.IsEmpty then none else some me)

theorem compileRun_arts_length (build : Target → Except (List Char) (List Nat))
    (targets : List Target) :
    (compileRun build targets).1.length =
      targets.length - (targets.filter (buildFails build)).length := by
  induction targets with
  | nil => rfl
  | cons t ts ih =>
    have hle : (ts.filter (buildFails build)).length ≤ ts.length :=
      List.length_filter_le _ _
    cases hb : build t with
    | ok bin =>
      have hf : buildFails build t = false := by simp [buildFails, hb]
      simp only [compileRun, hb, List.filter_cons, hf, Bool.false_eq_true,
        if_false, List.length_cons, ih]
      omega
    | error e =>
      have hf : buildFails build t = true := by simp [buildFails, hb]
      simp only [compileRun, hb, List.filter_cons, hf, if_true,
        List.length_cons, ih]
      omega

theorem compileRun_errs (build : Target → Except (List Char) (List Nat))
    (targets : List Target) :
    (compileRun build targets).2 =
      (targets.filter (buildFails build)).map (errEntry build) := by
  induction targets with
  | nil => rfl
  | cons t ts ih =>
    cases hb : build t with
    | ok bin =>
      have hf : buildFails build t = false := by simp [buildFails, hb]
      simp only [compileRun, hb, List.filter_cons, hf, Bool.false_eq_true,
        if_false, ih]
    | error e =>
      have hf : buildFails build t = true := by simp [buildFails, hb]
      simp only [compileRun, hb, List.filter_cons, hf, if_true, List.map_cons,
        ih, List.cons.injEq, and_true]
      simp [errEntry, hb]

theorem compileRun_count (build : Target → Except (List Char) (List Nat))
    (targets : List Target) (t : Target) :
    (compileRun build targets).1.countP (fun a => a.target = t) =
      (targets.filter (fun u => !buildFails build u)).count t := by
  induction targets with
  | nil => rfl
  | cons u ts ih =>
    cases hb : build u with
    | ok bin =>
      have hf : buildFails build u = false := by simp [buildFails, hb]
      simp only [compileRun, hb, List.filter_cons, hf, Bool.not_false, if_true,
        List.countP_cons, List.count_cons, ih]
      by_cases ht : u = t
      · simp [ht]
      · simp [ht, Ne.symm ht]
    | error e =>
      have hf : buildFails build u = true := by simp [buildFails, hb]
      simp only [compileRun, hb, List.filter_cons, hf, Bool.not_true,
        Bool.false_eq_true, if_false, ih]

/-- **C1** (confirmed).  For `N` requested targets of which `K` fail
compilation, `Packer.Compile` appends exactly `N − K` new artifacts to
the packer's list — for distinct requested targets, exactly one per
successful target and zero for each failed target, hence at most one per
requested Target — and the aggregate `MultiError` it returns contains
exactly `K` entries, the `"<target>: <cause>"` entry of each failed
target in request order; `Compile` returns no error exactly when
`K = 0`. -/
theorem compile_aggregation (build : Target → Except (List Char) (List Nat))
    (targets : List Target) (prior : List Artifact)
    (hnd : targets.Nodup) :
    (Compile prior build targets).1.length =
        prior.length +
          (targets.length - (targets.filter (buildFails build)).length) ∧
      ((Compile prior build targets).2 = none ↔
        (targets.filter (buildFails build)).length = 0) ∧
      (∀ me, (Compile prior build targets).2 = some me →
        me = (targets.filter (buildFails build)).map (errEntry build)) ∧
      (∀ t ∈ targets,
        (compileRun build targets).1.countP (fun a => a.target = t) =
          if buildFails build t then 0 else 1) ∧
      (∀ t : Target,
        (compileRun build targets).1.countP (fun a => a.target = t) ≤ 1) := by
  refine ⟨?_, ?_, ?_, ?_, ?_⟩
  · unfold Compile
    simp [compileRun_arts_length]
  · unfold Compile MultiError.FromChan MultiError.IsEmpty
    simp only [compileRun_errs]
    constructor
    · intro h
      by_cases hk : ((targets.filter (buildFails build)).map
          (errEntry build)).length = 0
      · simpa using hk
      · rw [if_neg (by simpa using hk)] at h
        cases h
    · intro h
      rw [if_pos (by simpa using h)]
  · intro me hme
    unfold Compile MultiError.FromChan MultiError.IsEmpty at hme
    simp only [compileRun_errs] at hme
    by_cases hk : ((targets.filter (buildFails build)).map
        (errEntry build)).length = 0
    · rw [if_pos (by simpa using hk)] at hme
      cases hme
    · rw [if_neg (by simpa using hk)] at hme
      injection hme with h
      exact h.symm
  · intro t ht
    rw [compileRun_count]
    by_cases hf : buildFails build t
    · rw [if_pos hf]
      refine List.count_eq_zero_of_not_mem ?_
      intro hmem
      have := (List.mem_filter.mp hmem).2
      simp [hf] at this
    · rw [if_neg hf]
      refine List.count_eq_one_of_mem (hnd.filter _) ?_
      exact List.mem_filter.mpr ⟨ht, by simp [hf]⟩
  · intro t
    rw [compileRun_count]
    exact List.nodup_iff_count_le_one.mp (hnd.filter _) t

/-- Witness for `compile_aggregation`: two distinct targets of which the
second fails; one artifact and a one-entry aggregate error result. -/
theorem compile_aggregation_witness :
    (Compile [] (fun t => if t.platform = Linux then .ok [7]
        else .error (str "boom"))
      [⟨Linux, AMD64⟩, ⟨Windows, AMD64⟩]).1.length =
        0 + (2 - ([⟨Linux, AMD64⟩, ⟨Windows, AMD64⟩].filter
          (buildFails (fun t => if t.platform = Linux then .ok [7]
            else .error (str "boom")))).length) ∧
      ((Compile [] (fun t => if t.platform = Linux then .ok [7]
          else .error (str "boom"))
        [⟨Linux, AMD64⟩, ⟨Windows, AMD64⟩]).2 = none ↔
        ([⟨Linux, AMD64⟩, ⟨Windows, AMD64⟩].filter
          (buildFails (fun t => if t.platform = Linux then .ok [7]
            else .error (str "boom")))).length = 0) ∧
      (∀ me, (Compile [] (fun t => if t.platform = Linux then .ok [7]
          else .error (str "boom"))
        [⟨Linux, AMD64⟩, ⟨Windows, AMD64⟩]).2 = some me →
        me = ([⟨Linux, AMD64⟩, ⟨Windows, AMD64⟩].filter
          (buildFails (fun t => if t.platform = Linux then .ok [7]
            else .error (str "boom")))).map
          (errEntry (fun t => if t.platform = Linux then .ok [7]
            else .error (str "boom")))) ∧
      (∀ t ∈ [(⟨Linux, AMD64⟩ : Target), ⟨Windows, AMD64⟩],
        (compileRun (fun t => if t.platform = Linux then .ok [7]
            else .error (str "boom"))
          [⟨Linux, AMD64⟩, ⟨Windows, AMD64⟩]).1.countP
            (fun a => a.target = t) =
          if buildFails (fun t => if t.platform = Linux then .ok [7]
              else .error (str "boom")) t then 0 else 1) ∧
      (∀ t : Target,
        (compileRun (fun t => if t.platform = Linux then .ok [7]
            else .error (str "boom"))
          [⟨Linux, AMD64⟩, ⟨Windows, AMD64⟩]).1.countP
            (fun a => a.target = t) ≤ 1) :=
  compile_aggregation _ _ [] (by decide)

/-! ## Resource embedder (src/rsrc/rsrc.go)

`ico.DecodeHeaders` (external collaborator) yields one descriptor per
image in the ICO directory; `Coff.AddResource` registers a resource in
the output object, modelled as appending to the list of registered
resources.  `RT_ICON` and `RT_GROUP_ICON` are the two resource kinds the
file uses.  Resource IDs are Go `uint16`, written `% 65536`. -/

/-- The two resource kinds registered by `addIcon`. -/
inductive ResKind where
  | rtIcon
  | rtGroupIcon
deriving DecidableEq

/-- Per-image directory data used by `addIcon`: the byte offset and
length locating the image payload inside the original ICO file
(`icon.ImageOffset`, `icon.BytesInRes`). -/
structure IconHdr where
  imageOffset : Nat
  bytesInRes : Nat
deriving DecidableEq

/-- The content of a registered resource: an `RT_ICON` resource carries
the `(offset, length)` section of the original ICO file; the
`RT_GROUP_ICON` resource carries the group header count plus one entry
per image pairing its directory data with its assigned ID. -/
inductive ResPayload where
  | iconData (offset len : Nat)
  | group (count : Nat) (entries : List (IconHdr × Nat))
deriving DecidableEq

/-- One resource registered via `Coff.AddResource`. -/
structure Resource where
  kind : ResKind
  id : Nat
  payload : ResPayload
deriving DecidableEq

/-- Go `func idGenerator() func() uint16`: a counter starting at 0 that
increments (with `uint16` wrap-around) before every use. -/
def idGen (c : Nat) : Nat × Nat := ((c + 1) % 65536, (c + 1) % 65536)

/-- The per-image loop of `addIcon`: for each image draw a fresh ID,
register an `RT_ICON` resource whose content is the image's section of
the ICO file, and record the group entry `{IconDirEntryCommon, Id}`.
Returns the registered resources, the group entries, and the final
counter state. -/
def addIconLoop (icons : List IconHdr) (c : Nat) :
    List Resource × List (IconHdr × Nat) × Nat :=
  match icons with
  | [] => ([], [], c)
  | icon :: rest =>
    let drawn := idGen c
    let next := addIconLoop rest drawn.2
    (⟨.rtIcon, drawn.1, .iconData icon.imageOffset icon.bytesInRes⟩ ::
        next.1,
      (icon, drawn.1) :: next.2.1, next.2.2)

/-- Go `func addIcon(out *Coff, icon string, newid func() uint16) error`
for a successfully decoded directory, started (as in `Embed`) from a
fresh `idGenerator`: registers the `RT_ICON` resources in image order,
then one `RT_GROUP_ICON` resource with `Count = uint16(len(icons))` and
an ID drawn after all image IDs.  An empty directory registers
nothing. -/
def addIcon (icons : List IconHdr) : List Resource :=
  if icons.length > 0 then
    let run := addIconLoop icons 0
    let gid := (idGen run.2.2).1
    run.1 ++
      [⟨.rtGroupIcon, gid, .group (icons.length % 65536) run.2.1⟩]
  else []

theorem addIconLoop_spec (icons : List IconHdr) (c : Nat)
    (h : c + icons.length < 65536) :
    (addIconLoop icons c).1.map Resource.id =
        List.range' (c + 1) icons.length ∧
      (addIconLoop icons c).1.map Resource.kind =
        List.replicate icons.length ResKind.rtIcon ∧
      (addIconLoop icons c).2.1 =
        icons.zip (List.range' (c + 1) icons.length) ∧
      (addIconLoop icons c).2.2 = c + icons.length := by
  induction icons generalizing c with
  | nil => simp [addIconLoop]
  | cons icon rest ih =>
    have hid : (c + 1) % 65536 = c + 1 := by
      apply Nat.mod_eq_of_lt
      simp only [List.length_cons] at h
      omega
    have hrest := ih (c + 1) (by simp only [List.length_cons] at h; omega)
    simp only [addIconLoop, idGen, hid, List.map_cons, List.length_cons,
      List.range'_succ, List.zip_cons_cons, List.replicate_succ,
      List.cons.injEq, true_and]
    refine ⟨?_, ?_, ?_, ?_⟩
    · simpa using hrest.1
    · simpa using hrest.2.1
    · simpa using hrest.2.2.1
    · simp only [hrest.2.2.2]; omega

/-- **C4** (confirmed).  For an ICO directory of `n ≥ 1` images (with
`n + 1` representable as a nonzero `uint16`), one embedding run assigns
strictly increasing 1-based IDs with no duplicates: the `RT_ICON`
resources get IDs `1..n` in image order, the single `RT_GROUP_ICON`
resource gets ID `n + 1`, and its group header's `Count` field equals
`n`, the number of `RT_ICON` resources registered. -/
theorem rsrc_addIcon_ids (icons : List IconHdr) (h1 : 1 ≤ icons.length)
    (h2 : icons.length + 1 < 65536) :
    (addIcon icons).map Resource.id = List.range' 1 (icons.length + 1) ∧
      ((addIcon icons).map Resource.id).Pairwise (· < ·) ∧
      ((addIcon icons).map Resource.id).Nodup ∧
      ((addIcon icons).filter (fun r => r.kind = ResKind.rtIcon)).map
          Resource.id = List.range' 1 icons.length ∧
      ((addIcon icons).filter (fun r => r.kind = ResKind.rtIcon)).length =
        icons.length ∧
      (addIcon icons).filter (fun r => r.kind = ResKind.rtGroupIcon) =
        [⟨ResKind.rtGroupIcon, icons.length + 1,
          ResPayload.group icons.length
            (icons.zip (List.range' 1 icons.length))⟩] := by
  have hspec := addIconLoop_spec icons 0 (by omega)
  have hpos : icons.length > 0 := h1
  have hgid : (0 + icons.length + 1) % 65536 = icons.length + 1 := by omega
  have hcnt : icons.length % 65536 = icons.length := by omega
  have hkinds : ∀ r ∈ (addIconLoop icons 0).1, r.kind = ResKind.rtIcon := by
    intro r hr
    have : r.kind ∈ (addIconLoop icons 0).1.map Resource.kind :=
      List.mem_map_of_mem Resource.kind hr
    rw [hspec.2.1] at this
    exact List.eq_of_mem_replicate this
  have haddIcon : addIcon icons =
      (addIconLoop icons 0).1 ++
        [⟨ResKind.rtGroupIcon, icons.length + 1,
          ResPayload.group icons.length
            (icons.zip (List.range' 1 icons.length))⟩] := by
    unfold addIcon
    rw [if_pos hpos]
    simp only [idGen, hspec.2.2.2, hgid, hcnt]
    rw [hspec.2.2.1]
  have hmapid : (addIcon icons).map Resource.id =
      List.range' 1 (icons.length + 1) := by
    rw [haddIcon, List.map_append, hspec.1]
    simp only [List.map_cons, List.map_nil]
    rw [List.range'_1_concat]
    simp [Nat.add_comm]
  refine ⟨hmapid, ?_, ?_, ?_, ?_, ?_⟩
  · rw [hmapid]
    exact List.pairwise_lt_range' 1 (icons.length + 1) 1 (by omega)
  · rw [hmapid]
    exact List.nodup_range' 1 (icons.length + 1) 1 (by omega)
  · rw [haddIcon, List.filter_append]
    rw [List.filter_eq_self.mpr (fun r hr => by simp [hkinds r hr])]
    rw [show List.filter (fun r => decide (r.kind = ResKind.rtIcon))
        [(⟨ResKind.rtGroupIcon, icons.length + 1,
          ResPayload.group icons.length
            (icons.zip (List.range' 1 icons.length))⟩ : Resource)] = []
      from by simp]
    rw [List.append_nil, hspec.1]
  · rw [haddIcon, List.filter_append]
    rw [List.filter_eq_self.mpr (fun r hr => by simp [hkinds r hr])]
    have hlen : (addIconLoop icons 0).1.length = icons.length := by
      have := congrArg List.length hspec.1
      simpa using this
    simp [hlen]
  · rw [haddIcon, List.filter_append]
    rw [List.filter_eq_nil_iff.mpr (fun r hr => by simp [hkinds r hr])]
    simp

/-- Witness for `rsrc_addIcon_ids` at a concrete two-image directory. -/
theorem rsrc_addIcon_ids_witness :
    (addIcon [⟨22, 100⟩, ⟨122, 50⟩]).map Resource.id =
        List.range' 1 ([(⟨22, 100⟩ : IconHdr), ⟨122, 50⟩].length + 1) ∧
      ((addIcon [⟨22, 100⟩, ⟨122, 50⟩]).map Resource.id).Pairwise (· < ·) ∧
      ((addIcon [⟨22, 100⟩, ⟨122, 50⟩]).map Resource.id).Nodup ∧
      ((addIcon [⟨22, 100⟩, ⟨122, 50⟩]).filter
          (fun r => r.kind = ResKind.rtIcon)).map Resource.id =
        List.range' 1 [(⟨22, 100⟩ : IconHdr), ⟨122, 50⟩].length ∧
      ((addIcon [⟨22, 100⟩, ⟨122, 50⟩]).filter
          (fun r => r.kind = ResKind.rtIcon)).length =
        [(⟨22, 100⟩ : IconHdr), ⟨122, 50⟩].length ∧
      (addIcon [⟨22, 100⟩, ⟨122, 50⟩]).filter
          (fun r => r.kind = ResKind.rtGroupIcon) =
        [⟨ResKind.rtGroupIcon, [(⟨22, 100⟩ : IconHdr), ⟨122, 50⟩].length + 1,
          ResPayload.group [(⟨22, 100⟩ : IconHdr), ⟨122, 50⟩].length
            ([(⟨22, 100⟩ : IconHdr), ⟨122, 50⟩].zip
              (List.range' 1 [(⟨22, 100⟩ : IconHdr), ⟨122, 50⟩].length))⟩] :=
  rsrc_addIcon_ids [⟨22, 100⟩, ⟨122, 50⟩] (by decide) (by decide)

/-! ## Sandbox preparation: recursive copy with ignore patterns
(src/internal/util/copy_buffer.go `Copier`, src/gopack.go `Compile`)

`filepath.Walk` enumerates the tree rooted at the source directory; the
enumeration is modelled as a list of `(path, isDir)` entries.  The
filesystem effects of the walk closure are collected as a trace of
operations. -/

/-- One walked filesystem entry (full path plus directory flag). -/
structure Entry where
  path : List Char
  isDir : Bool
deriving DecidableEq

/-- A filesystem effect performed by the copy: `os.MkdirAll target` for a
directory, `cp path target` for a regular file. -/
inductive FsOp where
  | mkdirAll (path : List Char)
  | copyFile (src dst : List Char)
deriving DecidableEq

/-- Go `type Copier struct { Recursive bool; Ignore []string }`. -/
structure Copier where
  Recursive : Bool
  Ignore : List (List Char)

/-- Go `func (c Copier) ignore(path string) bool`: the path is ignored if
it contains any pattern as a substring (`strings.Contains`). -/
def Copier.ignore (c : Copier) (path : List Char) : Bool :=
  c.Ignore.any fun pattern => containsSub path pattern

/-- Go `strings.TrimPrefix(s, pre)`. -/
def trimPre (pre s : List Char) : List Char :=
  if isPre pre s then s.drop pre.length else s

/-- Go `filepath.Join(a, b)` for the shapes arising here (no `..` or
repeated-separator cleaning, which the walk never produces). -/
def joinPath (a b : List Char) : List Char :=
  if b = [] then a
  else if isPre (str "/") b then a ++ b
  else a ++ str "/" ++ b

/-- The recursive branch of Go `func (c Copier) Copy(from, to string)`:
the `filepath.Walk` closure skips ignored paths, creates the translated
directory for directory entries, and copies regular files to
`filepath.Join(to, strings.TrimPrefix(path, from))`. -/
def Copier.copyWalk (c : Copier) (src dst : List Char)
    (walk : List Entry) : List FsOp :=
  walk.foldr
    (fun e ops =>
      if c.ignore e.path then ops
      else if e.isDir then
        FsOp.mkdirAll (joinPath dst (trimPre src e.path)) :: ops
      else
        FsOp.copyFile e.path (joinPath dst (trimPre src e.path)) :: ops)
    []

/-- Sandbox preparation in `Packer.Compile`:
`util.Copier{Recursive: true, Ignore: []string{"dist", ".git"}}
.Copy(p.Info.Root, sandbox)`. -/
def prepareSandbox (root sandbox : List Char) (walk : List Entry) :
    List FsOp :=
  Copier.copyWalk ⟨true, [str "dist", str ".git"]⟩ root sandbox walk

/-- Claim-side notion (from the spec's words, for comparison with the
code): a path is inside directory `dir` when it is `dir` itself or lives
strictly below it. -/
def insideDir (dir p : List Char) : Bool :=
  isPre (dir ++ str "/") p || p = dir

theorem isPre_iff (p s : List Char) : isPre p s = true ↔ p <+: s := by
  induction p generalizing s with
  | nil => simp [isPre]
  | cons a as ih =>
    cases s with
    | nil => simp [isPre]
    | cons b bs => simp [isPre, ih, List.cons_prefix_cons]

theorem containsSub_iff (hay pat : List Char) :
    containsSub hay pat = true ↔ pat <:+: hay := by
  induction hay with
  | nil =>
    simp [containsSub, isPre_iff, List.prefix_nil, List.infix_nil]
  | cons h t ih =>
    simp [containsSub, isPre_iff, ih, List.infix_cons_iff]

theorem copyWalk_mem (c : Copier) (src dst : List Char)
    (walk : List Entry) (op : FsOp) :
    op ∈ c.copyWalk src dst walk ↔
      ∃ e ∈ walk, c.ignore e.path = false ∧
        op = (if e.isDir then
          FsOp.mkdirAll (joinPath dst (trimPre src e.path))
        else
          FsOp.copyFile e.path (joinPath dst (trimPre src e.path))) := by
  induction walk with
  | nil => simp [Copier.copyWalk]
  | cons e rest ih =>
    unfold Copier.copyWalk at ih ⊢
    simp only [List.foldr_cons]
    by_cases hig : c.ignore e.path = true
    · rw [if_pos hig, ih]
      constructor
      · rintro ⟨e2, he2, hni, hop⟩
        exact ⟨e2, List.mem_cons_of_mem e he2, hni, hop⟩
      · rintro ⟨e2, he2, hni, hop⟩
        rcases List.mem_cons.mp he2 with rfl | hm
        · rw [hig] at hni; cases hni
        · exact ⟨e2, hm, hni, hop⟩
    · have hig2 : c.ignore e.path = false := by
        cases h : c.ignore e.path
        · rfl
        · exact absurd h hig
      rw [if_neg hig]
      by_cases hd : e.isDir
      · simp only [if_pos hd, List.mem_cons, ih]
        constructor
        · rintro (rfl | ⟨e2, he2, hni, hop⟩)
          · exact ⟨e, Or.inl rfl, hig2, by rw [if_pos hd]⟩
          · exact ⟨e2, Or.inr he2, hni, hop⟩
        · rintro ⟨e2, rfl | hm, hni, hop⟩
          · left; rw [hop, if_pos hd]
          · right; exact ⟨e2, hm, hni, hop⟩
      · simp only [if_neg hd, List.mem_cons, ih]
        constructor
        · rintro (rfl | ⟨e2, he2, hni, hop⟩)
          · exact ⟨e, Or.inl rfl, hig2, by rw [if_neg hd]⟩
          · exact ⟨e2, Or.inr he2, hni, hop⟩
        · rintro ⟨e2, rfl | hm, hni, hop⟩
          · left; rw [hop, if_neg hd]
          · right; exact ⟨e2, hm, hni, hop⟩

theorem containsSub_of_insideDir (src pat p : List Char)
    (h : insideDir (src ++ str "/" ++ pat) p = true) :
    containsSub p pat = true := by
  rw [containsSub_iff]
  unfold insideDir at h
  rw [Bool.or_eq_true] at h
  rcases h with h1 | h2
  · rw [isPre_iff] at h1
    obtain ⟨rest, hrest⟩ := h1
    exact ⟨src ++ str "/", str "/" ++ rest, by
      simp only [← hrest]; simp [List.append_assoc]⟩
  · have hp : p = src ++ str "/" ++ pat := by
      simpa using h2
    exact ⟨src ++ str "/", [], by simp [hp, List.append_assoc]⟩

/-- **C7** (corrected: counterexample).  The claim says preparation
excludes exactly the output directory and version-control metadata.  It
is false: the exclusion is by substring containment, so the regular file
`proj/redist.go` — inside neither `proj/dist` nor `proj/.git` — is
nevertheless skipped (its path contains `"dist"`), and the resulting
trace copies no file at all. -/
theorem copier_exclusion_counterexample :
    prepareSandbox (str "proj") (str "box")
        [⟨str "proj", true⟩, ⟨str "proj/redist.go", false⟩] =
      [FsOp.mkdirAll (str "box")] ∧
      insideDir (str "proj" ++ str "/" ++ str "dist")
        (str "proj/redist.go") = false ∧
      insideDir (str "proj" ++ str "/" ++ str ".git")
        (str "proj/redist.go") = false ∧
      (∀ dst, FsOp.copyFile (str "proj/redist.go") dst ∉
        prepareSandbox (str "proj") (str "box")
          [⟨str "proj", true⟩, ⟨str "proj/redist.go", false⟩]) := by
  refine ⟨by decide, by decide, by decide, ?_⟩
  intro dst hmem
  rw [show prepareSandbox (str "proj") (str "box")
      [⟨str "proj", true⟩, ⟨str "proj/redist.go", false⟩] =
      [FsOp.mkdirAll (str "box")] from by decide] at hmem
  simp at hmem

/-- **C7** (amended).  For every walked project tree, sandbox
preparation copies exactly the regular files whose full path contains
neither `"dist"` nor `".git"` as a substring: a walked regular file is
copied (to the sandbox path obtained by translating its root-relative
path) if and only if its path avoids both patterns.  In particular every
file inside the output directory `dist` or inside `.git` metadata is
excluded — but so is any file whose path merely contains either pattern
elsewhere. -/
theorem copier_substring_exclusion (root sandbox : List Char)
    (walk : List Entry) (hw : (walk.map Entry.path).Nodup) :
    (∀ e ∈ walk,
      (FsOp.copyFile e.path (joinPath sandbox (trimPre root e.path)) ∈
          prepareSandbox root sandbox walk ↔
        e.isDir = false ∧ containsSub e.path (str "dist") = false ∧
          containsSub e.path (str ".git") = false)) ∧
      (∀ e ∈ walk,
        insideDir (root ++ str "/" ++ str "dist") e.path = true ∨
          insideDir (root ++ str "/" ++ str ".git") e.path = true →
        ∀ dst, FsOp.copyFile e.path dst ∉ prepareSandbox root sandbox walk) := by
  constructor
  · intro e he
    unfold prepareSandbox
    rw [copyWalk_mem]
    constructor
    · rintro ⟨e2, he2, hni, hop⟩
      have hpath : e2.path = e.path := by
        by_cases hd2 : e2.isDir
        · rw [if_pos hd2] at hop; cases hop
        · rw [if_neg hd2] at hop
          injection hop with h1 h2
          exact h1.symm
      have hee : e2 = e := List.inj_on_of_nodup_map hw he2 he hpath
      subst hee
      have hd2 : e2.isDir = false := by
        by_cases hd : e2.isDir
        · rw [if_pos hd] at hop; cases hop
        · cases h : e2.isDir
          · rfl
          · exact absurd h hd
      refine ⟨hd2, ?_, ?_⟩ <;>
        · revert hni
          unfold Copier.ignore
          simp only [List.any_cons, List.any_nil, Bool.or_eq_false_iff]
          intro hni
          first
            | exact hni.1
            | exact hni.2.1
    · rintro ⟨hd, h1, h2⟩
      refine ⟨e, he, ?_, by rw [if_neg (by rw [hd]; simp)]⟩
      unfold Copier.ignore
      simp [h1, h2]
  · intro e he hins dst hmem
    unfold prepareSandbox at hmem
    rw [copyWalk_mem] at hmem
    obtain ⟨e2, he2, hni, hop⟩ := hmem
    have hpath : e2.path = e.path := by
      by_cases hd2 : e2.isDir
      · rw [if_pos hd2] at hop; cases hop
      · rw [if_neg hd2] at hop
        injection hop with h1 h2
        exact h1.symm
    have hcont : containsSub e.path (str "dist") = true ∨
        containsSub e.path (str ".git") = true := by
      rcases hins with h | h
      · exact Or.inl (containsSub_of_insideDir root (str "dist") e.path h)
      · exact Or.inr (containsSub_of_insideDir root (str ".git") e.path h)
    revert hni
    unfold Copier.ignore
    simp only [List.any_cons, List.any_nil, Bool.or_eq_false_iff, hpath]
    rintro ⟨hn1, hn2, -⟩
    rcases hcont with h | h
    · rw [hn1] at h; cases h
    · rw [hn2] at h; cases h

/-- Witness for `copier_substring_exclusion` on a concrete two-entry
walk: the clean file `proj/main.go` is copied, and nothing from inside
`proj/dist` would be. -/
theorem copier_substring_exclusion_witness :
    (∀ e ∈ [(⟨str "proj", true⟩ : Entry), ⟨str "proj/main.go", false⟩],
      (FsOp.copyFile e.path (joinPath (str "box") (trimPre (str "proj")
            e.path)) ∈
          prepareSandbox (str "proj") (str "box")
            [⟨str "proj", true⟩, ⟨str "proj/main.go", false⟩] ↔
        e.isDir = false ∧ containsSub e.path (str "dist") = false ∧
          containsSub e.path (str ".git") = false)) ∧
      (∀ e ∈ [(⟨str "proj", true⟩ : Entry), ⟨str "proj/main.go", false⟩],
        insideDir (str "proj" ++ str "/" ++ str "dist") e.path = true ∨
          insideDir (str "proj" ++ str "/" ++ str ".git") e.path = true →
        ∀ dst, FsOp.copyFile e.path dst ∉
          prepareSandbox (str "proj") (str "box")
            [⟨str "proj", true⟩, ⟨str "proj/main.go", false⟩]) :=
  copier_substring_exclusion (str "proj") (str "box")
    [⟨str "proj", true⟩, ⟨str "proj/main.go", false⟩] (by decide)

/-! ## Platform bundlers and the Pack dispatch (src/gopack.go `Pack`,
src/unnamed/part_002 `bundleLinux`, src/cmd/pack/main.go `main`)

`Packer.Pack` fans the produced artifacts out to the per-platform
bundlers.  The trace records, per artifact, the bundler invocation the
`switch artifact.Platform` performs: for Darwin a `bundleMacOS` call on
the per-target output directory, for Windows the placement of the binary
at `<dir>/<name>.exe` (effect of `bundleWindows` per the spec: copies the
compiled binary, icon already embedded), for Linux only the printed
warning — the `bundleLinux` call in the source is commented out.
Platforms with no switch case (JS) produce nothing. -/

/-- Go `filepath.Base` (Unix semantics): empty path gives `"."`,
trailing separators are stripped, an all-separator path gives `"/"`,
otherwise the last path element. -/
def baseName (p : List Char) : List Char :=
  if p = [] then str "."
  else
    let stripped := (p.reverse.dropWhile (fun c => c = '/')).reverse
    if stripped = [] then str "/"
    else (stripped.reverse.takeWhile (fun c => c ≠ '/')).reverse

/-- Go `func bundleLinux(dest, binary, icon string) error`
(src/unnamed/part_002): reads the binary file (its bytes are `content`),
and writes them unchanged to `filepath.Join(dest,
filepath.Base(binary))`; the result is the `(path, bytes)` pair written
by `ioutil.WriteFile`. -/
def bundleLinux (dest binary : List Char) (content : List Nat) :
    List Char × List Nat :=
  (joinPath dest (baseName binary), content)

/-- One bundler invocation performed by the `Pack` dispatch. -/
inductive BundleOp where
  | macosBundleAt (dir name : List Char) (binary : List Nat)
  | writeFileOp (path : List Char) (content : List Nat)
  | warnOp (msg : List Char)
deriving DecidableEq

/-- The `switch artifact.Platform` body of `Packer.Pack`
(src/gopack.go): Darwin dispatches `bundleMacOS(dir, name, binary, ...)`;
Windows places the binary at
`filepath.Join(dir, fmt.Sprintf("%s.exe", name))`; Linux prints
`"warning: bundle ignored"` and nothing else (the `bundleLinux` call is
commented out); any other platform matches no case. -/
def packArtifactOps (outputDir name : List Char) (a : Artifact) :
    List BundleOp :=
  let dir := joinPath outputDir (Target.toStr a.target)
  if a.target.platform = Darwin then
    [BundleOp.macosBundleAt dir name a.binary]
  else if a.target.platform = Windows then
    [BundleOp.writeFileOp (joinPath dir (name ++ str ".exe")) a.binary]
  else if a.target.platform = Linux then
    [BundleOp.warnOp (str "warning: bundle ignored")]
  else []

/-- **C8** (corrected: counterexample).  The claim says the bundling
stage copies a Linux artifact's binary into the target's output
directory preserving its base name.  It is false in `Pack`: the Linux
case only prints `"warning: bundle ignored"` (the `bundleLinux` call is
commented out), so the write the claim promises — here the binary bytes
`[7]` at `dist/linux_amd64/app` — never appears in the bundling
trace. -/
theorem pack_linux_counterexample :
    packArtifactOps (str "dist") (str "app") ⟨[7], ⟨Linux, AMD64⟩⟩ =
        [BundleOp.warnOp (str "warning: bundle ignored")] ∧
      BundleOp.writeFileOp
          (joinPath (joinPath (str "dist") (Target.toStr ⟨Linux, AMD64⟩))
            (baseName (str "app")))
          [7] ∉
        packArtifactOps (str "dist") (str "app") ⟨[7], ⟨Linux, AMD64⟩⟩ := by
  decide

theorem takeWhile_append_of_all {p : Char → Bool} {l : List Char}
    (m : List Char) (h : ∀ x ∈ l, p x = true) :
    (l ++ m).takeWhile p = l ++ m.takeWhile p := by
  induction l with
  | nil => simp
  | cons x xs ih =>
    simp [List.takeWhile_cons, h x (List.mem_cons_self x xs),
      ih (fun y hy => h y (List.mem_cons_of_mem x hy))]

theorem baseName_of_append (a b : List Char) (hb : b ≠ [])
    (hbs : '/' ∉ b) : baseName (a ++ str "/" ++ b) = b := by
  have hall : ∀ x ∈ b.reverse, (fun c => decide (c ≠ '/')) x = true := by
    intro x hx
    have hx2 : x ∈ b := List.mem_reverse.mp hx
    simp only [decide_eq_true_eq]
    intro hxeq
    exact hbs (hxeq ▸ hx2)
  have hrev : (a ++ str "/" ++ b).reverse =
      b.reverse ++ '/' :: a.reverse := by
    simp [str, List.reverse_append]
  obtain ⟨x, xs, hxxs⟩ : ∃ x xs, b.reverse = x :: xs := by
    cases hbr : b.reverse with
    | nil => exact absurd (by simpa using hbr) hb
    | cons x xs => exact ⟨x, xs, rfl⟩
  have hxne : (fun c => decide (c = '/')) x = false := by
    have := hall x (by rw [hxxs]; exact List.mem_cons_self x xs)
    simpa using this
  unfold baseName
  rw [if_neg (by simp [str])]
  rw [hrev, hxxs, List.cons_append,
    show ((x :: (xs ++ '/' :: a.reverse)).dropWhile (fun c => c = '/')) =
      x :: (xs ++ '/' :: a.reverse) from by
        simp only [List.dropWhile_cons, hxne]; simp]
  rw [if_neg (by simp)]
  rw [List.reverse_reverse, ← List.cons_append, ← hxxs,
    takeWhile_append_of_all ('/' :: a.reverse) hall]
  rw [show (('/' :: a.reverse).takeWhile fun c => decide (c ≠ '/')) = []
    from by simp [List.takeWhile_cons]]
  simp

/-- **C8** (amended).  `bundleLinux` itself — present in the repository —
does copy the compiled binary into the destination directory with its
base name preserved and its bytes unchanged (no wrapping format); but
the bundling stage of `Pack` never invokes it: for every artifact whose
Target platform is Linux, the dispatch performs only the
`"warning: bundle ignored"` print and writes nothing. -/
theorem bundleLinux_basename_preserved (dest binary : List Char)
    (content : List Nat) (hb : baseName binary ≠ [])
    (hbs : '/' ∉ baseName binary) :
    (bundleLinux dest binary content).2 = content ∧
      (bundleLinux dest binary content).1 =
        joinPath dest (baseName binary) ∧
      baseName (bundleLinux dest binary content).1 = baseName binary ∧
      (∀ a : Artifact, a.target.platform = Linux →
        ∀ outputDir name, packArtifactOps outputDir name a =
          [BundleOp.warnOp (str "warning: bundle ignored")]) := by
  have hpre : isPre (str "/") (baseName binary) = false := by
    obtain ⟨x, xs, hx⟩ : ∃ x xs, baseName binary = x :: xs := by
      cases h : baseName binary with
      | nil => exact absurd h hb
      | cons x xs => exact ⟨x, xs, rfl⟩
    have hxs : x ≠ '/' := fun he => hbs (by
      rw [hx, he]; exact List.mem_cons_self _ _)
    rw [hx]
    simp [str, isPre, Ne.symm hxs]
  refine ⟨rfl, rfl, ?_, ?_⟩
  · show baseName (joinPath dest (baseName binary)) = baseName binary
    unfold joinPath
    rw [if_neg hb, if_neg (by rw [hpre]; simp)]
    exact baseName_of_append dest (baseName binary) hb hbs
  · intro a ha outputDir name
    unfold packArtifactOps
    rw [ha]
    rfl

/-- Witness for `bundleLinux_basename_preserved` at the concrete binary
path `sandbox/out/app` with bytes `[7, 8]`. -/
theorem bundleLinux_basename_preserved_witness :
    (bundleLinux (str "dist/linux_amd64") (str "sandbox/out/app")
        [7, 8]).2 = [7, 8] ∧
      (bundleLinux (str "dist/linux_amd64") (str "sandbox/out/app")
          [7, 8]).1 =
        joinPath (str "dist/linux_amd64") (baseName (str "sandbox/out/app")) ∧
      baseName (bundleLinux (str "dist/linux_amd64")
          (str "sandbox/out/app") [7, 8]).1 =
        baseName (str "sandbox/out/app") ∧
      (∀ a : Artifact, a.target.platform = Linux →
        ∀ outputDir name, packArtifactOps outputDir name a =
          [BundleOp.warnOp (str "warning: bundle ignored")]) :=
  bundleLinux_basename_preserved (str "dist/linux_amd64")
    (str "sandbox/out/app") [7, 8] (by decide) (by decide)

/-! ## Pack error flow and process exit (src/gopack.go `Pack`,
src/cmd/pack/main.go `main`)

`main` always constructs the `Packer` with a non-nil `Info`, so the
modelled `Pack` covers that path: load metadata, compile, then — only
when `Compile` returned no error and artifacts exist — fan the artifacts
out to the bundlers (bundler failures are printed, not returned).
Metadata loading is an external-filesystem collaborator modelled by an
oracle `mdErr`. -/

/-- The structured failure `Packer.Pack` can return. -/
inductive PackErr where
  | loadingMetadata (msg : List Char)
  | compiling (me : MultiError)
  | noArtifacts
deriving DecidableEq

/-- Go `func (p Packer) Pack() error` for a packer with non-nil `Info`:
a metadata-loading failure or any `Compile` error is returned
immediately — before any bundling; with no artifacts the error
`"no artifacts to pack"` is returned; otherwise every artifact is
dispatched to its platform bundler and `nil` is returned. -/
def Pack (mdErr : Option (List Char)) (prior : List Artifact)
    (build : Target → Except (List Char) (List Nat))
    (targets : List Target) (outputDir name : List Char) :
    Option PackErr × List BundleOp :=
  match mdErr with
  | some e => (some (.loadingMetadata e), [])
  | none =>
    match (Compile prior build targets).2 with
    | some me => (some (.compiling me), [])
    | none =>
      let arts := (Compile prior build targets).1
      if arts.length = 0 then (some .noArtifacts, [])
      else (none, arts.flatMap (packArtifactOps outputDir name))

/-- Go `func main` tail (src/cmd/pack/main.go): a failure from
`packer.Pack()` (or argument validation) is printed with
`fmt.Printf("error: %v", err)` and `main` then returns normally;
`os.Exit` is never called, so the process exit status is 0 in every
case.  The result pairs the printed error (if any) with the exit
status. -/
def mainRun (packResult : Option PackErr) : Option PackErr × Nat :=
  match packResult with
  | some e => (some e, 0)
  | none => (none, 0)

/-- **C9** (corrected: counterexample).  The claim says the process
exits non-zero when zero targets succeed, and that partial failures do
not prevent built targets from being bundled.  Both parts fail: with the
single target failing, `Pack` returns the aggregated error but `main`
only prints it and the process exits 0; and with one of two targets
failing, `Compile` produces the one successful artifact yet `Pack`
returns before bundling, so the bundling trace is empty. -/
theorem main_exit_counterexample :
    ((Pack none [] (fun _ => Except.error (str "boom"))
        [⟨Windows, AMD64⟩] (str "dist") (str "app")).1).isSome = true ∧
      (mainRun (Pack none [] (fun _ => Except.error (str "boom"))
        [⟨Windows, AMD64⟩] (str "dist") (str "app")).1).2 = 0 ∧
      (Compile [] (fun t => if t.platform = Linux then Except.ok [7]
          else Except.error (str "boom"))
        [⟨Windows, AMD64⟩, ⟨Linux, AMD64⟩]).1.length = 1 ∧
      (Pack none [] (fun t => if t.platform = Linux then Except.ok [7]
          else Except.error (str "boom"))
        [⟨Windows, AMD64⟩, ⟨Linux, AMD64⟩] (str "dist") (str "app")).2 =
        [] := by decide

/-- **C9** (amended).  Whenever zero targets succeed or the inputs are
invalid, `Pack` returns an aggregated error description and `main`
prints it — but the process exit status is 0, not non-zero, because
`main` never calls `os.Exit`.  Moreover any compile failure, partial
included, makes `Pack` return the aggregated error before the bundling
stage, so successfully built artifacts are not bundled in that run;
bundling proceeds only when every target succeeds. -/
theorem pack_exit_behavior (build : Target → Except (List Char) (List Nat))
    (targets : List Target) (outputDir name : List Char) :
    ((targets.filter (buildFails build)).length ≠ 0 →
      (Pack none [] build targets outputDir name).1 =
          some (PackErr.compiling
            ((targets.filter (buildFails build)).map (errEntry build))) ∧
        (Pack none [] build targets outputDir name).2 = []) ∧
      ((targets.filter (buildFails build)).length = 0 → targets ≠ [] →
        (Pack none [] build targets outputDir name).1 = none ∧
        (Pack none [] build targets outputDir name).2 =
          ((Compile [] build targets).1).flatMap
            (packArtifactOps outputDir name)) ∧
      (∀ r : Option PackErr, (mainRun r).2 = 0) := by
  have herrs : (Compile [] build targets).2 =
      (if ((targets.filter (buildFails build)).map (errEntry build)).length
          = 0 then none
        else some ((targets.filter (buildFails build)).map
          (errEntry build))) := by
    unfold Compile MultiError.FromChan MultiError.IsEmpty
    simp only [compileRun_errs]
    by_cases hk : ((targets.filter (buildFails build)).map
        (errEntry build)).length = 0
    · rw [if_pos (by simpa using hk), if_pos hk]
    · rw [if_neg (by simpa using hk), if_neg hk]
  refine ⟨?_, ?_, fun r => by cases r <;> rfl⟩
  · intro hk
    have hk2 : ((targets.filter (buildFails build)).map
        (errEntry build)).length ≠ 0 := by simpa using hk
    unfold Pack
    rw [herrs, if_neg hk2]
    exact ⟨rfl, rfl⟩
  · intro hk hne
    have hk2 : ((targets.filter (buildFails build)).map
        (errEntry build)).length = 0 := by simpa using hk
    have hlen : (Compile [] build targets).1.length ≠ 0 := by
      unfold Compile
      simp only [List.nil_append, compileRun_arts_length]
      have : 0 < targets.length := List.length_pos.mpr hne
      omega
    unfold Pack
    rw [herrs, if_pos hk2]
    simp only
    rw [if_neg hlen]
    exact ⟨rfl, rfl⟩

/-- Witness for `pack_exit_behavior` at one always-failing target. -/
theorem pack_exit_behavior_witness :
    (([(⟨Windows, AMD64⟩ : Target)].filter
        (buildFails (fun _ => Except.error (str "boom")))).length ≠ 0 →
      (Pack none [] (fun _ => Except.error (str "boom"))
          [⟨Windows, AMD64⟩] (str "dist") (str "app")).1 =
          some (PackErr.compiling
            (([(⟨Windows, AMD64⟩ : Target)].filter
              (buildFails (fun _ => Except.error (str "boom")))).map
              (errEntry (fun _ => Except.error (str "boom"))))) ∧
        (Pack none [] (fun _ => Except.error (str "boom"))
          [⟨Windows, AMD64⟩] (str "dist") (str "app")).2 = []) ∧
      (([(⟨Windows, AMD64⟩ : Target)].filter
          (buildFails (fun _ => Except.error (str "boom")))).length = 0 →
        [(⟨Windows, AMD64⟩ : Target)] ≠ [] →
        (Pack none [] (fun _ => Except.error (str "boom"))
            [⟨Windows, AMD64⟩] (str "dist") (str "app")).1 = none ∧
        (Pack none [] (fun _ => Except.error (str "boom"))
            [⟨Windows, AMD64⟩] (str "dist") (str "app")).2 =
          ((Compile [] (fun _ => Except.error (str "boom"))
            [⟨Windows, AMD64⟩]).1).flatMap
            (packArtifactOps (str "dist") (str "app"))) ∧
      (∀ r : Option PackErr, (mainRun r).2 = 0) :=
  pack_exit_behavior (fun _ => Except.error (str "boom"))
    [⟨Windows, AMD64⟩] (str "dist") (str "app")

/-! ## ICO encoder (src/ico/ico.go `FromPNG`)

The raster scaling (`draw.CatmullRom`) and PNG encoding (`png.Encode`)
of each ladder size are external collaborators; they are abstracted into
an oracle `pngEncode : Nat → List Nat` giving the encoded payload bytes
of the resampled square image at each size.  Everything downstream of
`png.Encode` — header, directory entries, running offsets, payload
concatenation — is translated byte-for-byte.  `uint32`/`uint16`/`uint8`
truncation is explicit `% 2 ^ w`. -/

/-- Little-endian bytes of a `uint16` as written by `binary.Write`. -/
def u16le (n : Nat) : List Nat := [n % 256, n / 256 % 256]

/-- Little-endian bytes of a `uint32` as written by `binary.Write`. -/
def u32le (n : Nat) : List Nat :=
  [n % 256, n / 256 % 256, n / 2 ^ 16 % 256, n / 2 ^ 24 % 256]

/-- Go `sizes := []int{256, 128, 64, 48, 32, 16}`. -/
def icoSizes : List Nat := [256, 128, 64, 48, 32, 16]

/-- Go `type Descriptor struct` (ico.go): width, height, two reserved
bytes (colors, reserved), planes, bits-per-pixel, payload size, payload
offset. -/
structure IcoDescriptor where
  width : Nat
  height : Nat
  planes : Nat
  bpp : Nat
  size : Nat
  offset : Nat
deriving DecidableEq

/-- `binary.Write(outfile, binary.LittleEndian, icon.Header)`: the
16-byte little-endian serialization of a directory entry (the two blank
`uint8` fields write as zero). -/
def descriptorBytes (d : IcoDescriptor) : List Nat :=
  [d.width % 256, d.height % 256, 0, 0] ++ u16le d.planes ++
    u16le d.bpp ++ u32le d.size ++ u32le d.offset

/-- `binary.Write(outfile, binary.LittleEndian, ico)` for
`Header{_: 0, imageType: 1, imageCount: uint16(len(sizes))}`: the 6-byte
little-endian ICONDIR header. -/
def icoHeaderBytes : List Nat := u16le 0 ++ u16le 1 ++ u16le icoSizes.length

/-- The per-size body of the `for _, size := range sizes` loop: scale
the source to `size × size`, PNG-encode it (the oracle), and build the
container whose descriptor records `uint8(imgSize)` width/height with
`imgSize = 0` for 256, planes 1, bpp 32, and `uint32(len(data))`; the
offset is filled in later. -/
def mkContainer (pngEncode : Nat → List Nat) (size : Nat) :
    IcoDescriptor × List Nat :=
  let data := pngEncode size
  let imgSize := if 256 ≤ size then 0 else size
  (⟨imgSize % 256, imgSize % 256, 1, 32, data.length % 2 ^ 32, 0⟩, data)

/-- The directory-writing loop: each entry is written with the current
running offset, which then advances by the entry's recorded size in
`uint32` arithmetic. -/
def writeDirectory : List (IcoDescriptor × List Nat) → Nat → List Nat
  | [], _ => []
  | (d, _) :: rest, offset =>
    descriptorBytes { d with offset := offset % 2 ^ 32 } ++
      writeDirectory rest ((offset % 2 ^ 32 + d.size) % 2 ^ 32)

/-- Go `func FromPNG` downstream of decode/scale/encode: 6-byte header,
then the 16-byte directory entries in ladder order with running offsets
starting at `6 + 16*len(sizes)`, then the payloads concatenated in the
same order. -/
def fromPNG (pngEncode : Nat → List Nat) : List Nat :=
  let icons := icoSizes.map (mkContainer pngEncode)
  icoHeaderBytes ++
    writeDirectory icons (6 + 16 * icoSizes.length) ++
    (icons.map Prod.snd).flatten

/-- One directory entry as recovered by re-parsing the output bytes. -/
structure DirEntry where
  width : Nat
  height : Nat
  planes : Nat
  bpp : Nat
  size : Nat
  offset : Nat
deriving DecidableEq

/-- The parsed form of an ICO byte stream: reserved-checked image type
and count, the decoded directory, and the remaining payload bytes. -/
structure ParsedIco where
  imageType : Nat
  imageCount : Nat
  entries : List DirEntry
  payload : List Nat
deriving DecidableEq

/-- Re-parse `count` 16-byte little-endian directory entries. -/
def parseEntries : Nat → List Nat →
    Option (List DirEntry × List Nat)
  | 0, bs => some ([], bs)
  | n + 1, w :: h :: _colors :: _reserved :: p0 :: p1 :: b0 :: b1 ::
      s0 :: s1 :: s2 :: s3 :: o0 :: o1 :: o2 :: o3 :: rest =>
    match parseEntries n rest with
    | some (es, tail) =>
      some (⟨w, h, p0 + 256 * p1, b0 + 256 * b1,
        s0 + 256 * s1 + 2 ^ 16 * s2 + 2 ^ 24 * s3,
        o0 + 256 * o1 + 2 ^ 16 * o2 + 2 ^ 24 * o3⟩ :: es, tail)
    | none => none
  | _ + 1, _ => none

/-- Re-parse an ICO stream: 6-byte header (reserved word must be zero),
then the directory, then the payload region. -/
def parseIco (bs : List Nat) : Option ParsedIco :=
  match bs with
  | r0 :: r1 :: t0 :: t1 :: c0 :: c1 :: rest =>
    if r0 + 256 * r1 = 0 then
      match parseEntries (c0 + 256 * c1) rest with
      | some (es, tail) => some ⟨t0 + 256 * t1, c0 + 256 * c1, es, tail⟩
      | none => none
    else none
  | _ => none

/-- The payload byte lengths of the six ladder images. -/
def payloadLens (pngEncode : Nat → List Nat) : List Nat :=
  icoSizes.map fun s => (pngEncode s).length

theorem parseEntries_append (d : IcoDescriptor) (rest : List Nat) (n : Nat) :
    parseEntries (n + 1) (descriptorBytes d ++ rest) =
      (parseEntries n rest).map fun et =>
        (⟨d.width % 256, d.height % 256, d.planes % 65536, d.bpp % 65536,
          d.size % 2 ^ 32, d.offset % 2 ^ 32⟩ :: et.1, et.2) := by
  have h16 : (2:Nat) ^ 16 = 65536 := by norm_num
  have h24 : (2:Nat) ^ 24 = 16777216 := by norm_num
  have h32 : (2:Nat) ^ 32 = 4294967296 := by norm_num
  simp only [descriptorBytes, u16le, u32le, List.cons_append,
    List.nil_append, List.append_eq, parseEntries]
  cases hp : parseEntries n rest with
  | none => rfl
  | some et =>
    simp only [Option.map_some]
    refine congrArg some (congrArg (fun es => (es, et.2)) ?_)
    refine congrArg (fun e => e :: et.1) ?_
    have e1 : d.planes % 256 + 256 * (d.planes / 256 % 256) =
        d.planes % 65536 := by omega
    have e2 : d.bpp % 256 + 256 * (d.bpp / 256 % 256) = d.bpp % 65536 := by
      omega
    have e3 : d.size % 256 + 256 * (d.size / 256 % 256) +
        2 ^ 16 * (d.size / 2 ^ 16 % 256) + 2 ^ 24 * (d.size / 2 ^ 24 % 256) =
        d.size % 2 ^ 32 := by
      rw [h16, h24, h32]; omega
    have e4 : d.offset % 256 + 256 * (d.offset / 256 % 256) +
        2 ^ 16 * (d.offset / 2 ^ 16 % 256) +
        2 ^ 24 * (d.offset / 2 ^ 24 % 256) = d.offset % 2 ^ 32 := by
      rw [h16, h24, h32]; omega
    rw [e1, e2, e3, e4]

/-- The directory entries `writeDirectory` encodes, with offsets kept as
plain running sums (valid while the running offset stays below
`2 ^ 32`). -/
def entriesPlain : List (IcoDescriptor × List Nat) → Nat → List DirEntry
  | [], _ => []
  | (d, _) :: rest, off =>
    ⟨d.width % 256, d.height % 256, d.planes % 65536, d.bpp % 65536,
      d.size % 2 ^ 32, off⟩ :: entriesPlain rest (off + d.size)

theorem parse_writeDirectory (icons : List (IcoDescriptor × List Nat))
    (off : Nat) (J : List Nat)
    (hbound : off + (icons.map (fun x => x.1.size)).sum < 2 ^ 32) :
    parseEntries icons.length (writeDirectory icons off ++ J) =
      some (entriesPlain icons off, J) := by
  induction icons generalizing off with
  | nil => simp [writeDirectory, parseEntries, entriesPlain]
  | cons x rest ih =>
    obtain ⟨d, p⟩ := x
    have h32 : (2:Nat) ^ 32 = 4294967296 := by norm_num
    simp only [List.map_cons, List.sum_cons, h32] at hbound
    have hoff : off % 2 ^ 32 = off := by
      rw [h32]; exact Nat.mod_eq_of_lt (by omega)
    have hnext : (off + d.size) % 2 ^ 32 = off + d.size := by
      rw [h32]; exact Nat.mod_eq_of_lt (by omega)
    have hrec := ih (off + d.size) (by rw [h32]; omega)
    simp only [writeDirectory, hoff, hnext, List.length_cons,
      List.append_assoc]
    rw [parseEntries_append, hrec]
    simp only [Option.map_some, entriesPlain]
    simp [hoff]
    omega

theorem descriptorBytes_length (d : IcoDescriptor) :
    (descriptorBytes d).length = 16 := rfl

theorem writeDirectory_length (icons : List (IcoDescriptor × List Nat))
    (off : Nat) :
    (writeDirectory icons off).length = 16 * icons.length := by
  induction icons generalizing off with
  | nil => rfl
  | cons x rest ih =>
    obtain ⟨d, p⟩ := x
    simp only [writeDirectory, List.length_append, descriptorBytes_length,
      ih, List.length_cons]
    ring

/-- **C3** (confirmed).  For every source raster that decodes (the
per-size PNG payloads being the oracle's output, their total size
fitting `uint32`), the encoder output is: a 6-byte header
`[0,0, 1,0, 6,0]` (image type 1, image count 6, little-endian), six
16-byte little-endian directory entries in descending ladder order
256,128,64,48,32,16 — width/height byte equal to the size with 0
encoding 256, color planes 1, bits-per-pixel 32, recorded size equal to
the payload length — each recorded offset equal to `6 + 16*6` plus the
sum of all earlier payload sizes, and the payloads following
contiguously in the same order with no gaps or overlaps: re-parsing the
bytes and re-summing payload sizes from the header size reproduces every
recorded offset, and the total output length is exactly
`102 + Σ payload sizes`. -/
theorem ico_fromPNG_layout (pngEncode : Nat → List Nat)
    (hb : 102 + (payloadLens pngEncode).sum < 2 ^ 32) :
    icoHeaderBytes = [0, 0, 1, 0, 6, 0] ∧
      (∀ d : IcoDescriptor, (descriptorBytes d).length = 16) ∧
      parseIco (fromPNG pngEncode) = some
        ⟨1, 6,
          [⟨0, 0, 1, 32, (pngEncode 256).length, 102⟩,
           ⟨128, 128, 1, 32, (pngEncode 128).length,
             102 + (pngEncode 256).length⟩,
           ⟨64, 64, 1, 32, (pngEncode 64).length,
             102 + (pngEncode 256).length + (pngEncode 128).length⟩,
           ⟨48, 48, 1, 32, (pngEncode 48).length,
             102 + (pngEncode 256).length + (pngEncode 128).length +
               (pngEncode 64).length⟩,
           ⟨32, 32, 1, 32, (pngEncode 32).length,
             102 + (pngEncode 256).length + (pngEncode 128).length +
               (pngEncode 64).length + (pngEncode 48).length⟩,
           ⟨16, 16, 1, 32, (pngEncode 16).length,
             102 + (pngEncode 256).length + (pngEncode 128).length +
               (pngEncode 64).length + (pngEncode 48).length +
               (pngEncode 32).length⟩],
          pngEncode 256 ++ (pngEncode 128 ++ (pngEncode 64 ++
            (pngEncode 48 ++ (pngEncode 32 ++ pngEncode 16))))⟩ ∧
      (fromPNG pngEncode).length = 102 + (payloadLens pngEncode).sum := by
  have h32 : (2:Nat) ^ 32 = 4294967296 := by norm_num
  have hsum : (payloadLens pngEncode).sum =
      (pngEncode 256).length + ((pngEncode 128).length +
      ((pngEncode 64).length + ((pngEncode 48).length +
      ((pngEncode 32).length + ((pngEncode 16).length + 0))))) := by
    simp [payloadLens, icoSizes]
  rw [hsum, h32] at hb
  have hm0 : (pngEncode 256).length % 2 ^ 32 = (pngEncode 256).length := by
    rw [h32]; exact Nat.mod_eq_of_lt (by omega)
  have hm1 : (pngEncode 128).length % 2 ^ 32 = (pngEncode 128).length := by
    rw [h32]; exact Nat.mod_eq_of_lt (by omega)
  have hm2 : (pngEncode 64).length % 2 ^ 32 = (pngEncode 64).length := by
    rw [h32]; exact Nat.mod_eq_of_lt (by omega)
  have hm3 : (pngEncode 48).length % 2 ^ 32 = (pngEncode 48).length := by
    rw [h32]; exact Nat.mod_eq_of_lt (by omega)
  have hm4 : (pngEncode 32).length % 2 ^ 32 = (pngEncode 32).length := by
    rw [h32]; exact Nat.mod_eq_of_lt (by omega)
  have hm5 : (pngEncode 16).length % 2 ^ 32 = (pngEncode 16).length := by
    rw [h32]; exact Nat.mod_eq_of_lt (by omega)
  refine ⟨by decide, fun d => rfl, ?_, ?_⟩
  · have hicons : icoSizes.map (mkContainer pngEncode) =
        [(⟨0, 0, 1, 32, (pngEncode 256).length % 2 ^ 32, 0⟩, pngEncode 256),
         (⟨128, 128, 1, 32, (pngEncode 128).length % 2 ^ 32, 0⟩,
           pngEncode 128),
         (⟨64, 64, 1, 32, (pngEncode 64).length % 2 ^ 32, 0⟩, pngEncode 64),
         (⟨48, 48, 1, 32, (pngEncode 48).length % 2 ^ 32, 0⟩, pngEncode 48),
         (⟨32, 32, 1, 32, (pngEncode 32).length % 2 ^ 32, 0⟩, pngEncode 32),
         (⟨16, 16, 1, 32, (pngEncode 16).length % 2 ^ 32, 0⟩,
           pngEncode 16)] := by
      simp [icoSizes, mkContainer]
    have hbound : (6 + 16 * icoSizes.length) +
        ((icoSizes.map (mkContainer pngEncode)).map
          (fun x => x.1.size)).sum < 2 ^ 32 := by
      rw [hicons]
      simp only [List.map_cons, List.map_nil, List.sum_cons, List.sum_nil,
        hm0, hm1, hm2, hm3, hm4, hm5, icoSizes, List.length_cons,
        List.length_nil, h32]
      omega
    have hparse := parse_writeDirectory (icoSizes.map (mkContainer pngEncode))
      (6 + 16 * icoSizes.length)
      (((icoSizes.map (mkContainer pngEncode)).map Prod.snd).flatten) hbound
    have hlen6 : (icoSizes.map (mkContainer pngEncode)).length = 6 := by
      rw [hicons]; rfl
    rw [hlen6] at hparse
    unfold fromPNG parseIco
    rw [show icoHeaderBytes = [0, 0, 1, 0, 6, 0] from by decide]
    simp only [List.cons_append, List.nil_append, if_true]
    norm_num
    rw [List.map_map] at hparse
    rw [hparse]
    refine congrArg some ?_
    rw [hicons]
    simp only [entriesPlain, List.map_cons, List.map_nil, List.flatten,
      List.append_nil, hm0, hm1, hm2, hm3, hm4, hm5]
    norm_num [icoSizes, mkContainer, Function.comp]
  · unfold fromPNG
    simp only [List.length_append, writeDirectory_length,
      List.length_flatten]
    rw [show icoHeaderBytes.length = 6 from rfl]
    rw [show (icoSizes.map (mkContainer pngEncode)).length = 6 from by
      simp [icoSizes]]
    have hmap : ((icoSizes.map (mkContainer pngEncode)).map Prod.snd).map
        List.length = payloadLens pngEncode := by
      simp [icoSizes, mkContainer, payloadLens]
    rw [hmap, hsum]

/-- Witness for `ico_fromPNG_layout` at the concrete oracle encoding
every ladder size to a single byte. -/
theorem ico_fromPNG_layout_witness :
    icoHeaderBytes = [0, 0, 1, 0, 6, 0] ∧
      (∀ d : IcoDescriptor, (descriptorBytes d).length = 16) ∧
      parseIco (fromPNG (fun s => [s % 256])) = some
        ⟨1, 6,
          [⟨0, 0, 1, 32, [256 % 256].length, 102⟩,
           ⟨128, 128, 1, 32, [128 % 256].length, 102 + [256 % 256].length⟩,
           ⟨64, 64, 1, 32, [64 % 256].length,
             102 + [256 % 256].length + [128 % 256].length⟩,
           ⟨48, 48, 1, 32, [48 % 256].length,
             102 + [256 % 256].length + [128 % 256].length +
               [64 % 256].length⟩,
           ⟨32, 32, 1, 32, [32 % 256].length,
             102 + [256 % 256].length + [128 % 256].length +
               [64 % 256].length + [48 % 256].length⟩,
           ⟨16, 16, 1, 32, [16 % 256].length,
             102 + [256 % 256].length + [128 % 256].length +
               [64 % 256].length + [48 % 256].length + [32 % 256].length⟩],
          [256 % 256] ++ ([128 % 256] ++ ([64 % 256] ++ ([48 % 256] ++
            ([32 % 256] ++ [16 % 256]))))⟩ ∧
      (fromPNG (fun s => [s % 256])).length =
        102 + (payloadLens (fun s => [s % 256])).sum :=
  ico_fromPNG_layout (fun s => [s % 256]) (by norm_num [payloadLens, icoSizes])
